import Mathlib

/-!
Verification of the tetrs falling-block game (src/src/main.rs).

This file shallowly embeds the game's data model and the operations the
specification talks about: the piece bitmap catalogue and its rotation
lookup, the field and its collision/stamping functions, the score table
(sorting, insertion, and the binary save/load format), the per-key input
debouncer, the screen-stack directive processing of `main`, and one full
logic tick of the `TetrisMain` engine.  Machine integers are modelled as
`Nat`/`Int`; Rust `u32`/`u64`/`usize` subtractions that saturate-or-panic
are modelled with truncated `Nat` subtraction, and the places where the
source could panic on an impossible state are noted in comments.
-/

set_option maxRecDepth 8192

namespace Tetrs

/-- `FIELD_WIDTH` from the source (10). -/
def FIELD_WIDTH : Nat := 10

/-- `FIELD_HEIGHT` from the source (20). -/
def FIELD_HEIGHT : Nat := 20

/-- The `Color` enum from the source. -/
inductive Color where
  | red
  | orange
  | yellow
  | green
  | blue
  | purple
  | white
deriving DecidableEq, Repr

/-- The `Cell` enum: a field cell is empty or frozen with a colour. -/
inductive Cell where
  | empty
  | full (c : Color)
deriving DecidableEq, Repr

/-- `PIECES`: the seven 4x4 shape bitmaps, written exactly as the four-row
string literals of the source (row-major, 16 characters each). -/
def PIECES : List String :=
  [ "...." ++ ".##." ++ ".##." ++ "....",
    "..#." ++ "..#." ++ "..#." ++ "..#.",
    ".#.." ++ ".##." ++ "..#." ++ "....",
    "..#." ++ ".##." ++ ".#.." ++ "....",
    ".#.." ++ ".#.." ++ ".##." ++ "....",
    "..#." ++ "..#." ++ ".##." ++ "....",
    ".#.." ++ ".##." ++ ".#.." ++ "...." ]

/-- `PIECE_COLORS` from the source, index-aligned with `PIECES`. -/
def PIECE_COLORS : List Color :=
  [Color.red, Color.orange, Color.yellow, Color.green, Color.blue,
   Color.purple, Color.white]

/-- The `Piece` struct.  `x` and `y` are `i8` in the source; they are
modelled as unbounded `Int` (all reachable values are tiny), and `rot`
(`u8`, always reduced mod 4 before use) as `Nat`. -/
structure Piece where
  shape : String
  color : Color
  rot : Nat
  x : Int
  y : Int
deriving DecidableEq, Repr

/-- `Piece::new`: spawn at `x = FIELD_WIDTH/2 - 2 = 3`, `y = 0`, rotation 0.
The source asserts `index < PIECES.len()`; out-of-range indices are a
precondition violation, modelled here with `getD` defaults. -/
def Piece.new (index : Nat) : Piece :=
  { x := ((FIELD_WIDTH / 2 - 2 : Nat) : Int)
    y := 0
    color := PIECE_COLORS.getD index Color.red
    rot := 0
    shape := PIECES.getD index "" }

/-- `Piece::filled_at`: maps a local cell `(x, y)` with `x, y < 4` through
the quarter-turn index permutation selected by `rot % 4` and tests the
shape string for `#`.  The source asserts `x < 4 && y < 4`; the `Nat`
subtractions `3 - y` and `3 - x` match the source exactly on that domain. -/
def Piece.filled_at (p : Piece) (x y : Nat) : Bool :=
  let i := match p.rot % 4 with
    | 0 => x + y * 4
    | 1 => (3 - y) + x * 4
    | 2 => 15 - (x + y * 4)
    | _ => (3 - x) * 4 + y
  p.shape.data.getD i ' ' == '#'

/-- The `Field` type: `FIELD_WIDTH * FIELD_HEIGHT` cells, row-major
(`index = x + y * FIELD_WIDTH`).  The array of the source is modelled as a
`List Cell` of length 200. -/
abbrev Field := List Cell

/-- The all-empty field the game starts from. -/
def emptyField : Field := List.replicate (FIELD_WIDTH * FIELD_HEIGHT) Cell.empty

/-- `piece_fits`: every filled local cell of the piece must have an
absolute position inside the board (`0 ≤ rx < 10`, `0 ≤ ry < 20`, and the
row-major offset inside the array) and must target an empty cell.  The
loop of the source returns `false` at the first violating cell; this is
an `all` over the 4x4 local cells. -/
def piece_fits (p : Piece) (field : Field) : Bool :=
  (List.range 4).all fun y =>
    (List.range 4).all fun x =>
      let rx : Int := p.x + x
      let ry : Int := p.y + y
      let offset : Int := rx + ry * (FIELD_WIDTH : Int)
      if p.filled_at x y then
        if offset < 0 ∨ (List.length field : Int) ≤ offset ∨ rx < 0 ∨
            (FIELD_WIDTH : Int) ≤ rx ∨ ry < 0 ∨ (FIELD_HEIGHT : Int) ≤ ry then
          false
        else
          decide (field.getD offset.toNat Cell.empty = Cell.empty)
      else true

/-- `add_piece`: stamps every filled local cell whose row-major offset is
inside the array; out-of-range offsets are silently skipped. -/
def add_piece (p : Piece) (field : Field) : Field :=
  (List.range 4).foldl
    (fun f y =>
      (List.range 4).foldl
        (fun f x =>
          if p.filled_at x y then
            let offset : Int := (p.x + x) + (p.y + y) * (FIELD_WIDTH : Int)
            if 0 ≤ offset ∧ offset < (List.length f : Int) then
              f.set offset.toNat (Cell.full p.color)
            else f
          else f)
        f)
    field

/-- The `KeyState` tri-state of the input debouncer. -/
inductive KeyState where
  | pressed
  | holding
  | released
deriving DecidableEq, Repr

/-- The per-key transition `map` inside `fn input`: the raw GLFW action is
abstracted to the boolean `rawDown` (`Press`/`Repeat` read as down,
`Release` as up).  The `(Holding, _)` arm of the source is unreachable
because the raw reading is never `Holding`. -/
def debounce (rawDown : Bool) (prev : KeyState) : KeyState :=
  if rawDown then
    match prev with
    | KeyState.pressed => KeyState.holding
    | KeyState.holding => KeyState.holding
    | KeyState.released => KeyState.pressed
  else KeyState.released

/-- `was_pressed`: a key counts as pressed on its edge tick, and while held
on every even tick (auto-repeat at half tick rate). -/
def was_pressed (input : KeyState) (ticker : Nat) : Bool :=
  match input with
  | KeyState.pressed => true
  | KeyState.holding => ticker % 2 == 0
  | KeyState.released => false

/-- The `PlayerInput` struct: one debounced tri-state per tracked key. -/
structure PlayerInput where
  up : KeyState := KeyState.released
  down : KeyState := KeyState.released
  left : KeyState := KeyState.released
  right : KeyState := KeyState.released
  rot_right : KeyState := KeyState.released
  rot_left : KeyState := KeyState.released
  escape : KeyState := KeyState.released
deriving DecidableEq, Repr

/-- An input frame with every key released. -/
def quietInput : PlayerInput := {}

/-- A score-table entry.  The Rust entry is `(String, u64)`; the name is
modelled by its UTF-8 byte list (a Rust `String` is valid UTF-8 by
construction, so `String::from_utf8_lossy` in the loader is the identity
on every byte sequence the game itself produces), the score by a `Nat`
that the file format reduces mod 2^64 exactly as storing a `u64` does. -/
abbrev ScoreEntry := List Nat × Nat

/-- The comparator of `sort_scores`: compare entries by score only. -/
def scoreLe (a b : ScoreEntry) : Prop := a.2 ≤ b.2

instance : DecidableRel scoreLe := fun a b => Nat.decLe a.2 b.2

instance : IsTotal ScoreEntry scoreLe := ⟨fun a b => Nat.le_total a.2 b.2⟩

instance : IsTrans ScoreEntry scoreLe := ⟨fun _ _ _ h h' => Nat.le_trans h h'⟩

/-- `sort_scores`: Rust `sort_by` on the score component is a stable
ascending sort; it is modelled by the (stable) insertion sort. -/
def sort_scores (scores : List ScoreEntry) : List ScoreEntry :=
  List.insertionSort scoreLe scores

/-- The name `"PLR"` the scoreboard records for every new entry, as bytes. -/
def plrName : List Nat := [80, 76, 82]

/-- The pending-score insertion block of `TetrisScores::update` (the body
of `if let Some(score) = self.inputting_score`): sort ascending, insert a
`("PLR", score)` entry in front of the first entry scoring below it
(popping the last entry if that exceeds 10) or append it when no entry
scores below it, then sort ascending again. -/
def processScore (scores : List ScoreEntry) (score : Nat) : List ScoreEntry :=
  let scores := sort_scores scores
  let scores :=
    if 0 < score then
      match scores.findIdx? (fun e => e.2 < score) with
      | some index =>
        let l := scores.insertIdx index (plrName, score)
        if 10 < l.length then l.dropLast else l
      | none => scores ++ [(plrName, score)]
    else scores
  sort_scores scores

/-- The 8-byte magic `"tet.rs 1"` of the score file, as ASCII bytes. -/
def MAGIC : List Nat := [116, 101, 116, 46, 114, 115, 32, 49]

/-- Little-endian byte decomposition: `leBytes k n` gives the `k`
low-order base-256 digits of `n`, least significant first. -/
def leBytes : Nat → Nat → List Nat
  | 0, _ => []
  | k + 1, n => n % 256 :: leBytes k (n / 256)

/-- `u64::to_le_bytes`: eight little-endian bytes of the score. -/
def u64le (n : Nat) : List Nat := leBytes 8 n

/-- Little-endian byte recomposition (`u64::from_le_bytes`). -/
def leVal : List Nat → Nat
  | [] => 0
  | b :: bs => b + 256 * leVal bs

/-- The byte encoding of one entry as written by `save_scores`: one
name-length byte (`min(name.len(), 255)`), the name truncated to that
length, then the eight score bytes. -/
def entryBytes (e : ScoreEntry) : List Nat :=
  let len := min e.1.length 255
  len :: (e.1.take len ++ u64le e.2)

/-- `save_scores`: magic, entry count `min(len, 10)`, then the entries of
`scores.iter().rev().take(10)` — the last ten entries of the table, in
reverse order.  The result is the byte content of `tetrs_scores.bin`
(file I/O itself is outside the model). -/
def save_scores (scores : List ScoreEntry) : List Nat :=
  MAGIC ++ min scores.length 10 ::
    ((scores.reverse.take 10).flatMap entryBytes)

/-- Error kinds of `load_scores`: `eof` models a failing `read_exact`
(`UnexpectedEof`), `invalidData` the two explicit `InvalidData` returns. -/
inductive LoadError where
  | eof
  | invalidData
deriving DecidableEq, Repr

/-- `read_exact` into an `n`-byte buffer: splits off the first `n` bytes
or fails with `eof`. -/
def readN (n : Nat) (l : List Nat) : Except LoadError (List Nat × List Nat) :=
  if n ≤ l.length then Except.ok (l.take n, l.drop n) else Except.error LoadError.eof

/-- The per-entry read loop body of `load_scores`: name length byte, name
bytes (lossy UTF-8 decoding is the identity on the byte level, see
`ScoreEntry`), then eight score bytes. -/
def readEntry (l : List Nat) : Except LoadError (ScoreEntry × List Nat) := do
  let (lenB, l) ← readN 1 l
  let len := lenB.headD 0
  let (name, l) ← readN len l
  let (scoreB, l) ← readN 8 l
  Except.ok ((name, leVal scoreB), l)

/-- Reads the declared number of entries in order. -/
def readEntriesLoop : Nat → List Nat → Except LoadError (List ScoreEntry × List Nat)
  | 0, l => Except.ok ([], l)
  | n + 1, l => do
    let (e, l) ← readEntry l
    let (es, l') ← readEntriesLoop n l
    Except.ok (e :: es, l')

/-- `load_scores` on the byte content of the file: check the magic, read
the count byte, read that many entries, reject trailing bytes
(`bytes != file_length` holds exactly when bytes remain unread), then
sort ascending and reverse so the result is presented descending. -/
def load_scores (contents : List Nat) : Except LoadError (List ScoreEntry) := do
  let (magic, l) ← readN 8 contents
  if magic ≠ MAGIC then
    Except.error LoadError.invalidData
  else do
    let (cntB, l) ← readN 1 l
    let cnt := cntB.headD 0
    let (entries, l') ← readEntriesLoop cnt l
    if l' ≠ [] then
      Except.error LoadError.invalidData
    else
      Except.ok (sort_scores entries).reverse

/-- Transition directives a screen's update hands to the main loop
(`lib::game::StateChange`); the screen payloads of `Push`/`Swap` are
abstracted to tags below. -/
inductive ScreenTag where
  | menu
  | game
  | scores
deriving DecidableEq, Repr

/-- Result of one drained tick of `TetrisScores::update`, recording the
updated table, the cleared pending score, the argument passed to
`save_scores` (if it was called), and whether the tick returned `Pop`. -/
structure ScoresTickResult where
  scores : List ScoreEntry
  inputting : Option Nat
  saved : Option (List ScoreEntry)
  popped : Bool
deriving Repr

/-- One iteration of the tick loop of `TetrisScores::update`: process a
pending score (insert, cap, re-sort, save) if one is set, then return
`Pop` when escape reads `Pressed`. -/
def scoresTick (scores : List ScoreEntry) (inputting : Option Nat)
    (inp : PlayerInput) : ScoresTickResult :=
  match inputting with
  | some score =>
    let scores := processScore scores score
    { scores := scores
      inputting := none
      saved := some scores
      popped := inp.escape == KeyState.pressed }
  | none =>
    { scores := scores
      inputting := none
      saved := none
      popped := inp.escape == KeyState.pressed }

/-- `lib::game::StateChange`, with screen payloads abstracted to tags. -/
inductive StateChange where
  | noChange
  | quit
  | push (s : ScreenTag)
  | pop
  | swap (s : ScreenTag)
deriving DecidableEq, Repr

/-- The `match update_result` block of `main`: how one directive updates
the screen stack (`Vec` with the top at the end) and the window's
should-close flag.  `Pop` sets the flag only when `Vec::pop` returned
`None`, i.e. when the stack was already empty before the pop. -/
def applyStateChange (states : List ScreenTag) (shouldClose : Bool)
    (c : StateChange) : List ScreenTag × Bool :=
  match c with
  | StateChange.noChange => (states, shouldClose)
  | StateChange.quit => (states, true)
  | StateChange.push s => (states ++ [s], shouldClose)
  | StateChange.pop =>
    match states.getLast? with
    | none => (states, true)
    | some _ => (states.dropLast, shouldClose)
  | StateChange.swap s => (states.dropLast ++ [s], shouldClose)

/-- The head of the main loop, `states.last_mut().unwrap()`: `none` models
the panic on an empty stack. -/
def mainLoopActiveScreen (states : List ScreenTag) : Option ScreenTag :=
  states.getLast?

/-- The `BoardEffectType` enum; `linesCleared` carries the scanned row
indices (`Vec<i8>`). -/
inductive BoardEffectType where
  | linesCleared (lines : List Int)
  | gameOver
deriving DecidableEq, Repr

/-- The `BoardEffect` struct: an effect type plus a remaining lifetime. -/
structure BoardEffect where
  ty : BoardEffectType
  life : Nat
deriving DecidableEq, Repr

/-- Lifetime of a `LinesCleared` effect: `((1.0/FRAME_TIME) * 1.0).trunc()`
with `FRAME_TIME = 0.05f32` evaluates to 20. -/
def LINES_EFFECT_LIFE : Nat := 20

/-- Lifetime of a `GameOver` effect: `((1.0/FRAME_TIME) * 3.0).trunc()`
evaluates to 60. -/
def GAMEOVER_EFFECT_LIFE : Nat := 60

/-- The engine state of `TetrisMain` (the fields the tick logic touches;
`accum` and `last_input` live in the frame loop around the tick). -/
structure TetrisMain where
  field : Field
  active_piece : Option Piece
  fall_ticks : Nat
  fall_counter : Nat
  fall_accel_ticks : Nat
  fall_accel_counter : Nat
  next_pieces : List Piece
  rotated : Bool
  ticker : Nat
  score : Nat
  effect : Option BoardEffect
deriving DecidableEq, Repr

/-- Is every cell of row `y` (with `0 ≤ y < 20` already established by the
scan) non-empty? -/
def rowFull (field : Field) (y : Int) : Bool :=
  (List.range FIELD_WIDTH).all fun x =>
    field.getD (x + y.toNat * FIELD_WIDTH) Cell.empty ≠ Cell.empty

/-- The line-scan loop over candidate rows: skip rows `< 0` (`continue`),
stop at the first row `≥ 20` (`break`; rows are scanned in increasing
order), collect full rows. -/
def scanRows (field : Field) : List Int → List Int
  | [] => []
  | y :: rest =>
    if y < 0 then scanRows field rest
    else if (FIELD_HEIGHT : Int) ≤ y then []
    else if rowFull field y then y :: scanRows field rest
    else scanRows field rest

/-- The deletable-lines scan after a freeze: the four rows
`piece.y .. piece.y + 4` of the just-stamped field. -/
def scanDeletable (p : Piece) (field : Field) : List Int :=
  scanRows field [p.y, p.y + 1, p.y + 2, p.y + 3]

/-- The per-clear-count score factor (`match deletable.len()`), multiplied
by 100 by the caller.  The source panics (`unreachable!`) on counts
outside 1..4; those cannot occur because the scan visits at most 4 rows
(`scanRows_length_le`). -/
def lineScore : Nat → Nat
  | 1 => 1
  | 2 => 3
  | 3 => 5
  | 4 => 8
  | _ => 0

/-- One pass of the row-shift for a single deletable row index: rows
`line_y, line_y - 1, …, 1` each take the contents of the row above, row 0
is cleared. -/
def setRowFromAbove (f : Field) (y : Nat) : Field :=
  (List.range FIELD_WIDTH).foldl
    (fun f x =>
      if y = 0 then f.set x Cell.empty
      else f.set (x + y * FIELD_WIDTH) (f.getD (x + (y - 1) * FIELD_WIDTH) Cell.empty))
    f

/-- Deletes one collected row (`for y in (0..=line_y).rev()`); a negative
row index gives an empty range. -/
def deleteOneLine (f : Field) (line_y : Int) : Field :=
  if line_y < 0 then f
  else (List.range (line_y.toNat + 1)).reverse.foldl setRowFromAbove f

/-- The deferred row removal applied when a `LinesCleared` effect expires
(`for line_y in lines`). -/
def deleteLines (lines : List Int) (f : Field) : Field :=
  lines.foldl deleteOneLine f

/-- Result of one engine tick: return `Pop`, swap to the scoreboard with
an optional pending score, continue with a new state, or panic
(`next_pieces.remove(0)` on an empty queue). -/
inductive TickResult where
  | pop
  | swapScores (pending : Option Nat)
  | cont (s : TetrisMain)
  | panic
deriving DecidableEq, Repr

/-- The state carried by a `cont` result, if any. -/
def TickResult.state? : TickResult → Option TetrisMain
  | TickResult.cont s => some s
  | _ => none

/-- The fall/freeze section at the end of a tick (lines 889–950 of the
source), parameterised by the values the earlier sections computed: if the
piece should fall, reset the fall counter and try to move down one row; on
failure stamp the piece, scan for deletable lines, award score, adjust the
acceleration counter by the number of cleared lines and raise the
`LinesCleared` effect. -/
def fallStep (s : TetrisMain) (should_fall : Bool)
    (fall_ticks fall_counter fall_accel_counter : Nat) (rotated : Bool)
    (p : Piece) : TickResult :=
  if should_fall then
    let fall_counter := fall_ticks
    let tp := { p with y := p.y + 1 }
    if piece_fits tp s.field then
      TickResult.cont { s with
        active_piece := some tp
        fall_ticks := fall_ticks
        fall_counter := fall_counter
        fall_accel_counter := fall_accel_counter
        rotated := rotated }
    else
      let field := add_piece p s.field
      let deletable := scanDeletable p field
      if deletable.isEmpty then
        TickResult.cont { s with
          field := field
          active_piece := none
          fall_ticks := fall_ticks
          fall_counter := fall_counter
          fall_accel_counter := fall_accel_counter
          rotated := rotated }
      else
        TickResult.cont { s with
          field := field
          active_piece := none
          score := s.score + lineScore deletable.length * 100
          fall_ticks := fall_ticks
          fall_counter := fall_counter
          fall_accel_counter := fall_accel_counter - deletable.length
          rotated := rotated
          effect := some ⟨BoardEffectType.linesCleared deletable, LINES_EFFECT_LIFE⟩ }
  else
    TickResult.cont { s with
      active_piece := some p
      fall_ticks := fall_ticks
      fall_counter := fall_counter
      fall_accel_counter := fall_accel_counter
      rotated := rotated }

/-- Lines 837–950 of the source: the tick logic once an active piece `p`
is in hand (the state `s` already carries the incremented ticker).
Decrement the fall counter, run the acceleration check, attempt one
rotation, one horizontal move, then hand the computed values to
`fallStep`. -/
def tickActive (s : TetrisMain) (inp : PlayerInput) (p : Piece) : TickResult :=
  let fall_counter := s.fall_counter - 1
  let should_fall := fall_counter == 0 || was_pressed inp.down s.ticker
  let fall_ticks :=
    if s.fall_accel_counter = 0 then max (s.fall_ticks - 1) 1 else s.fall_ticks
  let fall_accel_counter :=
    if s.fall_accel_counter = 0 then s.fall_accel_ticks else s.fall_accel_counter
  let rotStep :=
    if inp.rot_right = KeyState.pressed then
      if s.rotated then (p, true)
      else
        let tp := { p with rot := (p.rot + 1) % 4 }
        (if piece_fits tp s.field then tp else p, true)
    else if inp.rot_left = KeyState.pressed then
      if s.rotated then (p, true)
      else
        let tp := { p with rot := if p.rot = 0 then 3 else p.rot - 1 }
        (if piece_fits tp s.field then tp else p, true)
    else (p, false)
  let p := rotStep.1
  let rotated := rotStep.2
  let p :=
    if was_pressed inp.right s.ticker then
      let tp := { p with x := p.x + 1 }
      if piece_fits tp s.field then tp else p
    else if was_pressed inp.left s.ticker then
      let tp := { p with x := p.x - 1 }
      if piece_fits tp s.field then tp else p
    else p
  fallStep s should_fall fall_ticks fall_counter fall_accel_counter rotated p

/-- One iteration of the tick loop of `TetrisMain::update`.  `inp` is the
already-debounced input of this tick and `np` the freshly sampled random
piece pushed onto the lookahead queue if a spawn happens.  Order follows
the source: increment the ticker, return `Pop` on escape, service an
active effect (suspending all other logic), spawn from the queue when no
piece is active (raising a `GameOver` effect if the spawn does not fit),
then run `tickActive`. -/
def tick (s : TetrisMain) (inp : PlayerInput) (np : Piece) : TickResult :=
  let s := { s with ticker := s.ticker + 1 }
  if was_pressed inp.escape s.ticker then TickResult.pop
  else
    match s.effect with
    | some eff =>
      let life := eff.life - 1
      match eff.ty with
      | BoardEffectType.linesCleared lines =>
        if life = 0 then
          TickResult.cont { s with field := deleteLines lines s.field, effect := none }
        else
          TickResult.cont { s with effect := some ⟨eff.ty, life⟩ }
      | BoardEffectType.gameOver =>
        if life = 0 then
          TickResult.swapScores (if 0 < s.score then some s.score else none)
        else
          TickResult.cont { s with effect := some ⟨BoardEffectType.gameOver, life⟩ }
    | none =>
      match s.active_piece with
      | some p => tickActive s inp p
      | none =>
        match s.next_pieces with
        | [] => TickResult.panic
        | test :: rest =>
          let s := { s with next_pieces := rest ++ [np] }
          if piece_fits test s.field then
            tickActive { s with active_piece := some test } inp test
          else
            TickResult.cont { s with
              effect := some ⟨BoardEffectType.gameOver, GAMEOVER_EFFECT_LIFE⟩ }

/-! ## Theorems -/

/-- C9: the per-key debounce transition satisfies the tri-state table —
raw-down from `Pressed`/`Holding` gives `Holding`, raw-down from
`Released` gives `Pressed`, raw-up gives `Released` regardless of the
previous state — and consequently three consecutive raw-down ticks from
`Released` produce `[Pressed, Holding, Holding]` and one subsequent
raw-up tick produces `Released` from any state. -/
theorem debounce_table_and_sequence :
    (debounce true KeyState.pressed = KeyState.holding ∧
      debounce true KeyState.holding = KeyState.holding ∧
      debounce true KeyState.released = KeyState.pressed) ∧
    ([debounce true KeyState.released,
      debounce true (debounce true KeyState.released),
      debounce true (debounce true (debounce true KeyState.released))] =
        [KeyState.pressed, KeyState.holding, KeyState.holding]) ∧
    (∀ prev : KeyState, debounce false prev = KeyState.released) := by
  refine ⟨by decide, by decide, ?_⟩
  intro prev
  cases prev <;> rfl

/-- C8: `filled_at` after four additional quarter turns agrees with
`filled_at` at the original rotation on every local cell of the 4×4
bitmap — the quarter-turn index permutation has order dividing 4. -/
theorem filled_at_rot_add_four (p : Piece) (x y : Nat) (hx : x < 4) (hy : y < 4) :
    Piece.filled_at { p with rot := p.rot + 4 } x y = p.filled_at x y := by
  simp only [Piece.filled_at, Nat.add_mod_right]

/-- Witness for `filled_at_rot_add_four` at the square piece and cell (1, 1). -/
theorem filled_at_rot_add_four_witness :
    (1 < 4 ∧ 1 < 4) ∧
      Piece.filled_at { Piece.new 0 with rot := (Piece.new 0).rot + 4 } 1 1 =
        (Piece.new 0).filled_at 1 1 :=
  ⟨⟨by decide, by decide⟩, filled_at_rot_add_four (Piece.new 0) 1 1 (by decide) (by decide)⟩

/-- C2 (code bug): processing `Pop` on a one-screen stack leaves an empty
stack with the should-close flag still unset — `main` only sets the flag
when `Vec::pop` itself returned `None`, i.e. when the stack was empty
before the pop — and the next iteration's `states.last_mut().unwrap()`
then has no screen to return (a panic), so the main loop is never told to
close when the stack becomes empty. -/
theorem pop_to_empty_stack_does_not_close :
    applyStateChange [ScreenTag.menu] false StateChange.pop = ([], false) ∧
    mainLoopActiveScreen [] = none := by
  exact ⟨rfl, rfl⟩


/-- The number of rows recorded in a pending `LinesCleared` effect. -/
def effectLineCount : Option BoardEffect → Nat
  | some ⟨BoardEffectType.linesCleared lines, _⟩ => lines.length
  | _ => 0

/-- The square piece moved down to rest at `(3, 17)`. -/
def restingSquare : Piece := { Piece.new 0 with y := 17 }

/-- A concrete engine state: square piece resting at `(3, 17)` over the
empty field, fall counter 5 (no fall due this tick), acceleration counter
7, no effect. -/
def quietTickState : TetrisMain :=
  { field := emptyField
    active_piece := some restingSquare
    fall_ticks := 20
    fall_counter := 5
    fall_accel_ticks := 10
    fall_accel_counter := 7
    next_pieces := [Piece.new 1, Piece.new 2, Piece.new 3]
    rotated := false
    ticker := 4
    score := 0
    effect := none }

/-- The state `tick` produces from `quietTickState` on a quiet input: only
the ticker and the fall counter move. -/
def quietTickState' : TetrisMain :=
  { quietTickState with ticker := 5, fall_counter := 4 }

/-- C3 counterexample: on a tick with an active piece (no effect, quiet
input) the acceleration counter is *not* decremented — it stays at 7.
The source only tests `fall_accel_counter == 0`; no per-tick decrement
exists, the counter is reduced solely by line clears. -/
theorem accel_counter_not_decremented_per_tick :
    quietTickState.effect = none ∧
    quietTickState.active_piece.isSome = true ∧
    quietTickState.fall_accel_counter = 7 ∧
    tick quietTickState quietInput (Piece.new 1) = TickResult.cont quietTickState' ∧
    quietTickState'.fall_accel_counter = 7 := by
  refine ⟨rfl, rfl, rfl, by decide, rfl⟩

/-- Follows the words of claim C1, not the source: a fit predicate that is
false exactly when some occupied cell has `x < 0`, `x ≥ 10`, `y ≥ 20` or
targets an already-full field cell, and that permits occupied cells with
absolute `y < 0` (above the visible board). -/
def claim_piece_fits (p : Piece) (field : Field) : Bool :=
  (List.range 4).all fun y =>
    (List.range 4).all fun x =>
      let rx : Int := p.x + x
      let ry : Int := p.y + y
      let offset : Int := rx + ry * (FIELD_WIDTH : Int)
      if p.filled_at x y then
        decide (0 ≤ rx) && decide (rx < (FIELD_WIDTH : Int)) &&
          decide (ry < (FIELD_HEIGHT : Int)) &&
          (if 0 ≤ ry then
            decide (field.getD offset.toNat Cell.empty = Cell.empty)
          else true)
      else true

/-- C1 counterexample: the square piece raised to `y = -2` (occupied cells
at absolute rows −1 and 0, columns 4 and 5, over an empty field) is
accepted by the claim's predicate but rejected by the source's
`piece_fits`, which tests `ry < 0` and rejects cells above the board. -/
theorem piece_fits_rejects_negative_y :
    claim_piece_fits { Piece.new 0 with y := -2 } emptyField = true ∧
    piece_fits { Piece.new 0 with y := -2 } emptyField = false := by
  constructor <;> decide

/-- C1 amended: `piece_fits` returns true exactly when every occupied cell
is inside `[0,10) × [0,20)` — cells with absolute `y < 0` are rejected
like any other out-of-bounds cell — and targets an empty field cell. -/
theorem piece_fits_iff (p : Piece) (field : Field) (hlen : field.length = 200) :
    piece_fits p field = true ↔
      ∀ x y : Nat, x < 4 → y < 4 → p.filled_at x y = true →
        0 ≤ p.x + (x : Int) ∧ p.x + (x : Int) < 10 ∧
        0 ≤ p.y + (y : Int) ∧ p.y + (y : Int) < 20 ∧
        field.getD (p.x + (x : Int) + (p.y + (y : Int)) * 10).toNat Cell.empty = Cell.empty := by
  simp only [piece_fits, List.all_eq_true, List.mem_range, FIELD_WIDTH, FIELD_HEIGHT, hlen]
  constructor
  · intro h x y hx hy hfill
    have := h y hy x hx
    simp only [hfill, if_true] at this
    split at this
    · exact absurd this (by simp)
    · rename_i hcond
      push_neg at hcond
      obtain ⟨h1, h2, h3, h4, h5, h6⟩ := hcond
      refine ⟨h3, by exact_mod_cast h4, h5, by exact_mod_cast h6, ?_⟩
      · simpa using this
  · intro h y hy x hx
    by_cases hfill : p.filled_at x y
    · simp only [hfill, if_true]
      obtain ⟨h1, h2, h3, h4, h5⟩ := h x y hx hy hfill
      have hoff : (0 : Int) ≤ p.x + x + (p.y + y) * 10 := by nlinarith
      have hoff2 : p.x + x + (p.y + y) * 10 < 200 := by nlinarith
      rw [if_neg]
      · simpa using h5
      · push_neg
        norm_num
        exact ⟨hoff, by exact_mod_cast hoff2, h1, by exact_mod_cast h2, h3, by exact_mod_cast h4⟩
    · simp [hfill]

/-- Witness for `piece_fits_iff` at the freshly spawned square piece over
the empty field. -/
theorem piece_fits_iff_witness :
    (emptyField.length = 200) ∧
      (piece_fits (Piece.new 0) emptyField = true ↔
        ∀ x y : Nat, x < 4 → y < 4 → (Piece.new 0).filled_at x y = true →
          0 ≤ (Piece.new 0).x + (x : Int) ∧ (Piece.new 0).x + (x : Int) < 10 ∧
          0 ≤ (Piece.new 0).y + (y : Int) ∧ (Piece.new 0).y + (y : Int) < 20 ∧
          emptyField.getD
            ((Piece.new 0).x + (x : Int) + ((Piece.new 0).y + (y : Int)) * 10).toNat
            Cell.empty = Cell.empty) :=
  ⟨by decide, piece_fits_iff (Piece.new 0) emptyField (by decide)⟩

/-- Helper: any `cont` result of `fallStep` carries `fall_ticks = ft` and
an acceleration counter equal to `fac` minus the number of rows of the
`LinesCleared` effect it raised (zero when none was raised). -/
theorem fallStep_accel_fields (s : TetrisMain) (sf : Bool) (ft fc fac : Nat)
    (rot : Bool) (p : Piece) (s' : TetrisMain) (heff : s.effect = none)
    (h : fallStep s sf ft fc fac rot p = TickResult.cont s') :
    s'.fall_ticks = ft ∧
    s'.fall_accel_counter = fac - effectLineCount s'.effect := by
  simp only [fallStep] at h
  split at h
  · split at h
    · cases h
      exact ⟨rfl, by simp [effectLineCount, heff]⟩
    · split at h
      · cases h
        exact ⟨rfl, by simp [effectLineCount, heff]⟩
      · cases h
        exact ⟨rfl, by simp [effectLineCount]⟩
  · cases h
    exact ⟨rfl, by simp [effectLineCount, heff]⟩

/-- Helper: `tickActive` updates `fall_ticks` and the acceleration counter
exactly by the `fall_accel_counter == 0` check plus the line-clear
saturating subtraction. -/
theorem tickActive_accel_fields (s : TetrisMain) (inp : PlayerInput) (p : Piece)
    (s' : TetrisMain) (heff : s.effect = none)
    (h : tickActive s inp p = TickResult.cont s') :
    s'.fall_ticks = (if s.fall_accel_counter = 0 then max (s.fall_ticks - 1) 1 else s.fall_ticks) ∧
    s'.fall_accel_counter =
      (if s.fall_accel_counter = 0 then s.fall_accel_ticks else s.fall_accel_counter)
        - effectLineCount s'.effect :=
  fallStep_accel_fields s _ _ _ _ _ _ s' heff h

/-- C3 amended: the acceleration counter is not decremented per tick.  On
any tick, `fall_ticks` changes only when the counter is already 0, and
then to `max (fall_ticks - 1) 1`; on a tick with an active piece and no
effect, `fall_ticks` and the counter are updated exactly by the
`fall_accel_counter == 0` test (reduce `fall_ticks` with floor 1, reset
the counter to `fall_accel_ticks`) followed by a saturating subtraction of
the number of rows cleared this tick — line clears are the only way the
counter decreases, and the counter-hits-0 reset is the only way the fall
period decreases. -/
theorem fall_period_accel (s : TetrisMain) (inp : PlayerInput) (np : Piece) (s' : TetrisMain)
    (h : tick s inp np = TickResult.cont s') :
    (s'.fall_ticks ≠ s.fall_ticks →
      s.fall_accel_counter = 0 ∧ s'.fall_ticks = max (s.fall_ticks - 1) 1) ∧
    (∀ p : Piece, s.effect = none → s.active_piece = some p →
      s'.fall_ticks =
        (if s.fall_accel_counter = 0 then max (s.fall_ticks - 1) 1 else s.fall_ticks) ∧
      s'.fall_accel_counter =
        (if s.fall_accel_counter = 0 then s.fall_accel_ticks else s.fall_accel_counter)
          - effectLineCount s'.effect) := by
  simp only [tick] at h
  split at h
  · exact absurd h (by simp)
  · split at h
    · rename_i eff heq
      split at h
      · split at h
        · cases h
          refine ⟨fun hne => absurd rfl hne, fun p heff hap => ?_⟩
          rw [heq] at heff; exact absurd heff (by simp)
        · cases h
          refine ⟨fun hne => absurd rfl hne, fun p heff hap => ?_⟩
          rw [heq] at heff; exact absurd heff (by simp)
      · split at h
        · exact absurd h (by simp)
        · cases h
          refine ⟨fun hne => absurd rfl hne, fun p heff hap => ?_⟩
          rw [heq] at heff; exact absurd heff (by simp)
    · rename_i heq
      split at h
      · rename_i p hap
        have hfields := tickActive_accel_fields _ inp p s' (by simpa using heq) h
        simp only at hfields
        refine ⟨fun hne => ?_, fun q heff hapq => hfields⟩
        by_cases hc : s.fall_accel_counter = 0
        · exact ⟨hc, by simpa [hc] using hfields.1⟩
        · exact absurd (by simpa [hc] using hfields.1) hne
      · rename_i hap
        split at h
        · exact absurd h (by simp)
        · rename_i test rest hq
          split at h
          · have hfields := tickActive_accel_fields _ inp test s' (by simpa using heq) h
            simp only at hfields
            refine ⟨fun hne => ?_, fun q heff hapq => ?_⟩
            · by_cases hc : s.fall_accel_counter = 0
              · exact ⟨hc, by simpa [hc] using hfields.1⟩
              · exact absurd (by simpa [hc] using hfields.1) hne
            · rw [hap] at hapq; exact absurd hapq (by simp)
          · cases h
            refine ⟨fun hne => absurd rfl hne, fun q heff hapq => ?_⟩
            rw [hap] at hapq; exact absurd hapq (by simp)

/-- Witness for `fall_period_accel` at the quiet concrete tick. -/
theorem fall_period_accel_witness :
    tick quietTickState quietInput (Piece.new 1) = TickResult.cont quietTickState' ∧
    ((quietTickState'.fall_ticks ≠ quietTickState.fall_ticks →
        quietTickState.fall_accel_counter = 0 ∧
        quietTickState'.fall_ticks = max (quietTickState.fall_ticks - 1) 1) ∧
      (∀ p : Piece, quietTickState.effect = none →
        quietTickState.active_piece = some p →
        quietTickState'.fall_ticks =
          (if quietTickState.fall_accel_counter = 0 then max (quietTickState.fall_ticks - 1) 1
            else quietTickState.fall_ticks) ∧
        quietTickState'.fall_accel_counter =
          (if quietTickState.fall_accel_counter = 0 then quietTickState.fall_accel_ticks
            else quietTickState.fall_accel_counter)
            - effectLineCount quietTickState'.effect)) :=
  ⟨by decide,
    fall_period_accel quietTickState quietInput (Piece.new 1) quietTickState' (by decide)⟩

/-- Helper: `sort_scores` permutes its input. -/
theorem sort_scores_perm (l : List ScoreEntry) : List.Perm (sort_scores l) l :=
  List.perm_insertionSort scoreLe l

/-- Helper: `sort_scores` sorts ascending by score. -/
theorem sort_scores_sorted (l : List ScoreEntry) : List.Pairwise scoreLe (sort_scores l) :=
  List.sorted_insertionSort scoreLe l

/-- Helper: the pending-score insertion keeps the table within 10 entries
provided the score is 0, or the table has room, or some entry scores
strictly below the pending score (otherwise the `push` branch grows a full
table to 11). -/
theorem processScore_length (scores : List ScoreEntry) (sc : Nat)
    (h10 : scores.length ≤ 10)
    (hcase : sc = 0 ∨ scores.length < 10 ∨ ∃ e ∈ scores, e.2 < sc) :
    (processScore scores sc).length ≤ 10 := by
  unfold processScore
  have hperm := sort_scores_perm scores
  have hlen : (sort_scores scores).length = scores.length := hperm.length_eq
  by_cases hsc : 0 < sc
  · simp only [if_pos hsc]
    cases hfind : (sort_scores scores).findIdx? (fun e => decide (e.2 < sc)) with
    | some idx =>
      simp only [hfind]
      have hle := List.length_insertIdx_le_succ (sort_scores scores) (plrName, sc) idx
      split
      · rename_i hgt
        have : ((sort_scores scores).insertIdx idx (plrName, sc)).dropLast.length =
            ((sort_scores scores).insertIdx idx (plrName, sc)).length - 1 :=
          List.length_dropLast _
        calc (sort_scores (((sort_scores scores).insertIdx idx (plrName, sc)).dropLast)).length
            = ((sort_scores scores).insertIdx idx (plrName, sc)).dropLast.length :=
              (sort_scores_perm _).length_eq
          _ ≤ 10 := by omega
      · rename_i hng
        calc (sort_scores ((sort_scores scores).insertIdx idx (plrName, sc))).length
            = ((sort_scores scores).insertIdx idx (plrName, sc)).length :=
              (sort_scores_perm _).length_eq
          _ ≤ 10 := by omega
    | none =>
      simp only [hfind]
      have hnone := List.findIdx?_eq_none_iff.mp hfind
      rcases hcase with h0 | hlt | ⟨e, hem, he⟩
      · omega
      · calc (sort_scores (sort_scores scores ++ [(plrName, sc)])).length
            = (sort_scores scores ++ [(plrName, sc)]).length := (sort_scores_perm _).length_eq
          _ = scores.length + 1 := by simp [hlen]
          _ ≤ 10 := by omega
      · exfalso
        have : e ∈ sort_scores scores := hperm.mem_iff.mpr hem
        have := hnone e this
        simp at this
        omega
  · simp only [if_neg hsc]
    calc (sort_scores (sort_scores scores)).length
        = (sort_scores scores).length := (sort_scores_perm _).length_eq
      _ ≤ 10 := by omega

/-- Ten entries all scoring 5: a full table none of whose entries scores
below a pending score of 3. -/
def tenFives : List ScoreEntry := (List.range 10).map (fun i => ([i], 5))

/-- C4 counterexample: processing pending score 3 against the full
`tenFives` table takes the `push` branch (no entry scores below 3) and
leaves the in-memory table with 11 entries, not at most 10; moreover the
table after an insertion is sorted ascending by score, not descending
(shown on a two-entry table receiving score 4). -/
theorem processScore_breaks_cap_and_descending :
    tenFives.length = 10 ∧
    (processScore tenFives 3).length = 11 ∧
    ¬ List.Pairwise (fun a b : ScoreEntry => b.2 ≤ a.2)
        (processScore [([0], 1), ([1], 9)] 4) := by
  refine ⟨by decide, by decide, by decide⟩

/-- C4 amended: when the scoreboard processes a pending score `sc` against
a table of at most 10 entries, and `sc` is 0, or the table has fewer than
10 entries, or some entry scores strictly below `sc`, then afterwards the
in-memory table holds at most 10 entries (in the remaining case — a full
table whose entries all score at least `sc > 0` — the new entry is pushed
without the cap, reaching 11); the table is kept sorted *ascending* by
score; and it is handed to `save_scores` in the same tick, before the
escape input is acted on, whatever the input was. -/
theorem scoresTick_pending_score (scores : List ScoreEntry) (sc : Nat) (inp : PlayerInput)
    (h10 : scores.length ≤ 10)
    (hcase : sc = 0 ∨ scores.length < 10 ∨ ∃ e ∈ scores, e.2 < sc) :
    (scoresTick scores (some sc) inp).scores.length ≤ 10 ∧
    List.Pairwise scoreLe (scoresTick scores (some sc) inp).scores ∧
    (scoresTick scores (some sc) inp).saved =
      some (scoresTick scores (some sc) inp).scores ∧
    (scoresTick scores (some sc) inp).inputting = none := by
  refine ⟨processScore_length scores sc h10 hcase, ?_, rfl, rfl⟩
  exact sort_scores_sorted _

/-- Witness for `scoresTick_pending_score` on a two-entry table receiving
score 4 with the escape key pressed. -/
theorem scoresTick_pending_score_witness :
    (([([0], 1), ([1], 9)] : List ScoreEntry).length ≤ 10 ∧
      ((4 : Nat) = 0 ∨ ([([0], 1), ([1], 9)] : List ScoreEntry).length < 10 ∨
        ∃ e ∈ ([([0], 1), ([1], 9)] : List ScoreEntry), e.2 < 4)) ∧
    ((scoresTick [([0], 1), ([1], 9)] (some 4)
        { quietInput with escape := KeyState.pressed }).scores.length ≤ 10 ∧
      List.Pairwise scoreLe (scoresTick [([0], 1), ([1], 9)] (some 4)
        { quietInput with escape := KeyState.pressed }).scores ∧
      (scoresTick [([0], 1), ([1], 9)] (some 4)
        { quietInput with escape := KeyState.pressed }).saved =
        some (scoresTick [([0], 1), ([1], 9)] (some 4)
          { quietInput with escape := KeyState.pressed }).scores ∧
      (scoresTick [([0], 1), ([1], 9)] (some 4)
        { quietInput with escape := KeyState.pressed }).inputting = none) :=
  ⟨⟨by decide, by decide⟩,
    scoresTick_pending_score [([0], 1), ([1], 9)] 4
      { quietInput with escape := KeyState.pressed } (by decide) (by decide)⟩

/-- C5: when the table holds exactly 10 entries, the pending score `sc` is
positive, and some entry scores strictly below `sc`, the insertion goes to
index 0 of the ascending-sorted table and the subsequent `pop` removes the
*last* — maximal — entry: the result is a permutation of the new `PLR`
entry together with the 9 smallest previous entries. -/
theorem processScore_full_table_drops_max (scores : List ScoreEntry) (sc : Nat)
    (hlen : scores.length = 10) (hsc : 0 < sc) (hex : ∃ e ∈ scores, e.2 < sc) :
    ∃ m : ScoreEntry,
      List.Perm ((sort_scores scores).dropLast ++ [m]) scores ∧
      (∀ e ∈ scores, e.2 ≤ m.2) ∧
      (sort_scores scores).dropLast.length = 9 ∧
      List.Perm (processScore scores sc) ((plrName, sc) :: (sort_scores scores).dropLast) := by
  have hperm := sort_scores_perm scores
  have hslen : (sort_scores scores).length = 10 := hperm.length_eq.trans hlen
  have hne : sort_scores scores ≠ [] := by
    intro hnil; rw [hnil] at hslen; simp at hslen
  refine ⟨(sort_scores scores).getLast hne, ?_, ?_, ?_, ?_⟩
  · rw [List.dropLast_concat_getLast hne]; exact hperm
  · intro e hem
    have hsorted := sort_scores_sorted scores
    have hmem : e ∈ sort_scores scores := hperm.mem_iff.mpr hem
    conv at hsorted => rw [← List.dropLast_concat_getLast hne]
    rw [List.pairwise_append] at hsorted
    rw [← List.dropLast_concat_getLast hne, List.mem_append] at hmem
    rcases hmem with hd | hl
    · exact hsorted.2.2 e hd _ (by simp)
    · simp at hl; rw [hl]
  · have := List.length_dropLast (sort_scores scores); omega
  · obtain ⟨e, hem, he⟩ := hex
    obtain ⟨hd, tl, hcons⟩ : ∃ hd tl, sort_scores scores = hd :: tl := by
      cases hq : sort_scores scores with
      | nil => exact absurd hq hne
      | cons a l => exact ⟨a, l, rfl⟩
    have hhd : hd.2 < sc := by
      have hsorted := sort_scores_sorted scores
      rw [hcons] at hsorted
      rw [List.pairwise_cons] at hsorted
      have hmem : e ∈ sort_scores scores := hperm.mem_iff.mpr hem
      rw [hcons] at hmem
      rcases List.mem_cons.mp hmem with h1 | h2
      · rw [← h1]; exact he
      · exact Nat.lt_of_le_of_lt (hsorted.1 e h2) he
    simp only [processScore]
    rw [if_pos hsc]
    rw [hcons, List.findIdx?_cons]
    rw [if_pos (by simpa using hhd)]
    simp only [List.insertIdx_zero]
    have hlt : 10 < ((plrName, sc) :: hd :: tl).length := by
      have : (hd :: tl).length = 10 := by rw [← hcons]; exact hslen
      simp [this]
    rw [if_pos hlt]
    have hdrop : ((plrName, sc) :: hd :: tl).dropLast =
        (plrName, sc) :: (hd :: tl).dropLast := List.dropLast_cons₂
    rw [hdrop, ← hcons]
    exact sort_scores_perm _

/-- Ten entries scoring 1 through 10. -/
def oneToTen : List ScoreEntry := (List.range 10).map (fun i => ([i], i + 1))

/-- Witness for `processScore_full_table_drops_max` on the table scoring
1..10 with pending score 7. -/
theorem processScore_full_table_drops_max_witness :
    (oneToTen.length = 10 ∧ 0 < 7 ∧ ∃ e ∈ oneToTen, e.2 < 7) ∧
    ∃ m : ScoreEntry,
      List.Perm ((sort_scores oneToTen).dropLast ++ [m]) oneToTen ∧
      (∀ e ∈ oneToTen, e.2 ≤ m.2) ∧
      (sort_scores oneToTen).dropLast.length = 9 ∧
      List.Perm (processScore oneToTen 7) ((plrName, 7) :: (sort_scores oneToTen).dropLast) :=
  ⟨⟨by decide, by decide, by decide⟩,
    processScore_full_table_drops_max oneToTen 7 (by decide) (by decide) (by decide)⟩


/-- Helper: the line scan visits at most the rows of its candidate list. -/
theorem scanRows_length_le (f : Field) (l : List Int) :
    (scanRows f l).length ≤ l.length := by
  induction l with
  | nil => simp [scanRows]
  | cons y rest ih =>
    simp only [scanRows]
    split
    · exact Nat.le_trans ih (by simp)
    · split
      · simp
      · split
        · simpa using ih
        · exact Nat.le_trans ih (by simp)

/-- C7: on a tick where the active piece `p` cannot fall (no effect, no
rotation/movement/escape input in the way, and a fall due), the piece
freezes and the score changes by exactly 0, 100, 300, 500 or 800 points
according to the number of rows the freeze completes; no count above 4 is
reachable because the scan window is four rows. -/
theorem freeze_scoring (s : TetrisMain) (inp : PlayerInput) (np p : Piece)
    (heff : s.effect = none) (hap : s.active_piece = some p)
    (hesc : was_pressed inp.escape (s.ticker + 1) = false)
    (hrr : inp.rot_right ≠ KeyState.pressed) (hrl : inp.rot_left ≠ KeyState.pressed)
    (hright : was_pressed inp.right (s.ticker + 1) = false)
    (hleft : was_pressed inp.left (s.ticker + 1) = false)
    (hfall : s.fall_counter - 1 = 0 ∨ was_pressed inp.down (s.ticker + 1) = true)
    (hnofit : piece_fits { p with y := p.y + 1 } s.field = false) :
    ∃ s', tick s inp np = TickResult.cont s' ∧
      ((scanDeletable p (add_piece p s.field)).length ≤ 4 ∧
       ((scanDeletable p (add_piece p s.field)).length = 0 → s'.score = s.score) ∧
       ((scanDeletable p (add_piece p s.field)).length = 1 → s'.score = s.score + 100) ∧
       ((scanDeletable p (add_piece p s.field)).length = 2 → s'.score = s.score + 300) ∧
       ((scanDeletable p (add_piece p s.field)).length = 3 → s'.score = s.score + 500) ∧
       ((scanDeletable p (add_piece p s.field)).length = 4 → s'.score = s.score + 800)) := by
  have hk4 : (scanDeletable p (add_piece p s.field)).length ≤ 4 := by
    have := scanRows_length_le (add_piece p s.field) [p.y, p.y + 1, p.y + 2, p.y + 3]
    simpa [scanDeletable] using this
  have hsf : ((s.fall_counter - 1 == 0) || was_pressed inp.down (s.ticker + 1)) = true := by
    rcases hfall with h | h
    · simp [h]
    · simp [h]
  have htick : tick s inp np =
      fallStep { s with ticker := s.ticker + 1 } true
        (if s.fall_accel_counter = 0 then max (s.fall_ticks - 1) 1 else s.fall_ticks)
        (s.fall_counter - 1)
        (if s.fall_accel_counter = 0 then s.fall_accel_ticks else s.fall_accel_counter)
        false p := by
    simp only [tick, heff, hap, tickActive]
    rw [if_neg (by simp [hesc])]
    simp only [if_neg hrr, if_neg hrl]
    simp only [hright, hleft, Bool.false_eq_true, if_false]
    simp only [hsf]
  rw [htick]
  simp only [fallStep, if_true]
  rw [if_neg (by simp [hnofit])]
  cases hemp : (scanDeletable p (add_piece p s.field)).isEmpty with
  | true =>
    rw [if_pos rfl]
    refine ⟨_, rfl, hk4, ?_, ?_, ?_, ?_, ?_⟩ <;> intro hkk <;> simp_all [List.isEmpty_iff]
  | false =>
    refine ⟨_, by rw [if_neg (by simp)], hk4, ?_, ?_, ?_, ?_, ?_⟩ <;> intro hkk <;>
      simp_all [lineScore]

/-- Row 19 fully occupied except columns 4 and 5 (the columns the resting
square piece will fill). -/
def nearWinField : Field :=
  (List.range 200).map
    (fun i => if 190 ≤ i ∧ i ≠ 194 ∧ i ≠ 195 then Cell.full Color.red else Cell.empty)

/-- `quietTickState` over `nearWinField` with the fall counter about to
expire: the square freezes this tick and completes row 19. -/
def freezeState : TetrisMain :=
  { quietTickState with field := nearWinField, fall_counter := 1 }

/-- Witness for `freeze_scoring`: the square resting at `(3, 17)` freezes
into `nearWinField`, completing exactly one row. -/
theorem freeze_scoring_witness :
    (freezeState.effect = none ∧
      freezeState.active_piece = some restingSquare ∧
      was_pressed quietInput.escape (freezeState.ticker + 1) = false ∧
      quietInput.rot_right ≠ KeyState.pressed ∧
      quietInput.rot_left ≠ KeyState.pressed ∧
      was_pressed quietInput.right (freezeState.ticker + 1) = false ∧
      was_pressed quietInput.left (freezeState.ticker + 1) = false ∧
      (freezeState.fall_counter - 1 = 0 ∨
        was_pressed quietInput.down (freezeState.ticker + 1) = true) ∧
      piece_fits { restingSquare with y := restingSquare.y + 1 } freezeState.field = false) ∧
    ∃ s', tick freezeState quietInput (Piece.new 1) = TickResult.cont s' ∧
      ((scanDeletable restingSquare (add_piece restingSquare freezeState.field)).length ≤ 4 ∧
       ((scanDeletable restingSquare (add_piece restingSquare freezeState.field)).length = 0 →
          s'.score = freezeState.score) ∧
       ((scanDeletable restingSquare (add_piece restingSquare freezeState.field)).length = 1 →
          s'.score = freezeState.score + 100) ∧
       ((scanDeletable restingSquare (add_piece restingSquare freezeState.field)).length = 2 →
          s'.score = freezeState.score + 300) ∧
       ((scanDeletable restingSquare (add_piece restingSquare freezeState.field)).length = 3 →
          s'.score = freezeState.score + 500) ∧
       ((scanDeletable restingSquare (add_piece restingSquare freezeState.field)).length = 4 →
          s'.score = freezeState.score + 800)) :=
  ⟨⟨rfl, rfl, by decide, by decide, by decide, by decide, by decide,
      Or.inl (by decide), by decide⟩,
    freeze_scoring freezeState quietInput (Piece.new 1) restingSquare rfl rfl
      (by decide) (by decide) (by decide) (by decide) (by decide)
      (Or.inl (by decide)) (by decide)⟩


/-- Helper: `read_exact` consumes exactly the prefix it was asked for. -/
theorem readN_append (l r : List Nat) : readN l.length (l ++ r) = Except.ok (l, r) := by
  unfold readN
  rw [if_pos (by simp)]
  rw [List.take_left' rfl, List.drop_left' rfl]

/-- Helper: `leBytes k` always produces `k` bytes. -/
theorem leBytes_length (k n : Nat) : (leBytes k n).length = k := by
  induction k generalizing n with
  | zero => rfl
  | succ k ih => simp [leBytes, ih]

/-- Helper: recomposing the little-endian digits gives the value modulo
`256 ^ k` — for `k = 8` exactly the behaviour of storing a `u64`. -/
theorem leVal_leBytes (k n : Nat) : leVal (leBytes k n) = n % 256 ^ k := by
  induction k generalizing n with
  | zero => simp [leBytes, leVal, Nat.mod_one]
  | succ k ih =>
    rw [leBytes, leVal, ih]
    rw [pow_succ, mul_comm (256 ^ k) 256, Nat.mod_mul]

/-- Helper: `Except` bind on an `ok` value. -/
theorem exc_bind_ok {α β : Type} (a : α) (f : α → Except LoadError β) :
    ((Except.ok a : Except LoadError α) >>= f) = f a := rfl

/-- Helper: reading one serialised entry back, for names within the
255-byte length prefix and `u64` scores. -/
theorem readEntry_bytes (e : ScoreEntry) (rest : List Nat)
    (hname : e.1.length ≤ 255) (hsc : e.2 < 2 ^ 64) :
    readEntry (entryBytes e ++ rest) = Except.ok (e, rest) := by
  have hmin : min e.1.length 255 = e.1.length := Nat.min_eq_left hname
  have h1 : readN 1 (e.1.length :: (e.1 ++ (u64le e.2 ++ rest))) =
      Except.ok ([e.1.length], e.1 ++ (u64le e.2 ++ rest)) := by
    simpa using readN_append [e.1.length] (e.1 ++ (u64le e.2 ++ rest))
  have h3 : readN 8 (u64le e.2 ++ rest) = Except.ok (u64le e.2, rest) := by
    have := readN_append (u64le e.2) rest
    rwa [show (u64le e.2).length = 8 from leBytes_length 8 e.2] at this
  unfold readEntry entryBytes
  simp only [hmin, List.take_length, List.cons_append, List.append_assoc]
  rw [h1, exc_bind_ok]
  simp only [List.headD]
  rw [readN_append e.1 (u64le e.2 ++ rest), exc_bind_ok]
  rw [h3, exc_bind_ok]
  simp only
  rw [show leVal (u64le e.2) = e.2 % 256 ^ 8 from leVal_leBytes 8 e.2]
  have : e.2 % 256 ^ 8 = e.2 := Nat.mod_eq_of_lt (by norm_num at hsc ⊢; omega)
  rw [this]

/-- Helper: reading back a serialised entry list. -/
theorem readEntriesLoop_bytes (es : List ScoreEntry) (rest : List Nat)
    (h : ∀ e ∈ es, e.1.length ≤ 255 ∧ e.2 < 2 ^ 64) :
    readEntriesLoop es.length (es.flatMap entryBytes ++ rest) = Except.ok (es, rest) := by
  induction es with
  | nil => simp [readEntriesLoop]
  | cons e es ih =>
    have he := h e (by simp)
    have hrec := ih (fun x hx => h x (by simp [hx]))
    simp only [List.length_cons, List.flatMap_cons, List.append_assoc, readEntriesLoop,
      readEntry_bytes e (es.flatMap entryBytes ++ rest) he.1 he.2, exc_bind_ok, hrec]

/-- Helper: loading a file written by `save_scores` succeeds and returns
the written entries (the last ten of the table) presented descending. -/
theorem load_save (scores : List ScoreEntry)
    (h : ∀ e ∈ scores, e.1.length ≤ 255 ∧ e.2 < 2 ^ 64) :
    load_scores (save_scores scores) =
      Except.ok (sort_scores (scores.reverse.take 10)).reverse := by
  have hw : ∀ e ∈ scores.reverse.take 10, e.1.length ≤ 255 ∧ e.2 < 2 ^ 64 := by
    intro e he
    exact h e ((List.mem_reverse).mp (List.mem_of_mem_take he))
  have hcnt : min scores.length 10 = (scores.reverse.take 10).length := by
    simp [Nat.min_comm]
  have h8 : readN 8 (MAGIC ++ ((scores.reverse.take 10).length ::
      (scores.reverse.take 10).flatMap entryBytes)) =
      Except.ok (MAGIC, (scores.reverse.take 10).length ::
        (scores.reverse.take 10).flatMap entryBytes) := by
    simpa using readN_append MAGIC _
  have h1 : readN 1 ((scores.reverse.take 10).length ::
      (scores.reverse.take 10).flatMap entryBytes) =
      Except.ok ([(scores.reverse.take 10).length],
        (scores.reverse.take 10).flatMap entryBytes) := by
    simpa using readN_append [(scores.reverse.take 10).length] _
  have hloop := readEntriesLoop_bytes (scores.reverse.take 10) [] hw
  rw [List.append_nil] at hloop
  unfold load_scores save_scores
  rw [hcnt]
  simp only [h8, exc_bind_ok, h1, List.headD, hloop]
  simp

/-- Eleven entries whose unique highest-scoring entry sits at the front. -/
def elevenEntries : List ScoreEntry :=
  ([72], 100) :: (List.range 10).map (fun i => ([i], 1))

/-- C6 counterexample: `save_scores` writes `scores.iter().rev().take(10)`
— the *last* ten entries — so on an input of 11 entries whose unique
highest-scoring entry is first, the saved-and-reloaded table contains only
score-1 entries: the ten written entries are not the ten with the highest
scores. -/
theorem save_scores_drops_highest_of_unsorted :
    elevenEntries.length = 11 ∧
    ([72], 100) ∈ elevenEntries ∧
    (∀ e ∈ elevenEntries, e.2 ≤ 100) ∧
    (∀ e ∈ (load_scores (save_scores elevenEntries)).toOption.getD [([72], 100)],
      e.2 = 1) := by
  refine ⟨by decide, by decide, by decide, by decide⟩

/-- C6 amended: for any table whose names fit the 255-byte length prefix
and whose scores are `u64` values, saving and reloading succeeds and
reproduces exactly the *last* ten entries of the table (as a multiset),
presented sorted descending by score; for tables of at most 10 entries
that is the whole table, and when the table is sorted ascending by score —
as the game maintains it — every dropped entry scores no more than every
kept one, i.e. the ten written entries are the ten highest. -/
theorem save_load_roundtrip (scores : List ScoreEntry)
    (h : ∀ e ∈ scores, e.1.length ≤ 255 ∧ e.2 < 2 ^ 64) :
    ∃ t, load_scores (save_scores scores) = Except.ok t ∧
      List.Perm t (scores.reverse.take 10).reverse ∧
      List.Pairwise (fun a b : ScoreEntry => b.2 ≤ a.2) t ∧
      (scores.length ≤ 10 → List.Perm t scores) ∧
      (List.Pairwise scoreLe scores →
        ∀ d ∈ scores.take (scores.length - 10), ∀ k ∈ t, d.2 ≤ k.2) := by
  refine ⟨(sort_scores (scores.reverse.take 10)).reverse, load_save scores h, ?_, ?_, ?_, ?_⟩
  · exact (List.reverse_perm _).trans ((sort_scores_perm _).trans (List.reverse_perm _).symm)
  · rw [List.pairwise_reverse]
    exact sort_scores_sorted _
  · intro h10
    have ht : scores.reverse.take 10 = scores.reverse :=
      List.take_of_length_le (by simpa using h10)
    rw [ht]
    exact ((List.reverse_perm _).trans (sort_scores_perm _)).trans (List.reverse_perm _)
  · intro hasc d hd k hk
    have hk1 : k ∈ sort_scores (scores.reverse.take 10) := (List.mem_reverse).mp hk
    have hk2 : k ∈ scores.reverse.take 10 := (sort_scores_perm _).mem_iff.mp hk1
    rw [List.take_reverse, List.mem_reverse] at hk2
    have hasc2 : List.Pairwise scoreLe
        (scores.take (scores.length - 10) ++ scores.drop (scores.length - 10)) := by
      rw [List.take_append_drop]; exact hasc
    exact (List.pairwise_append.mp hasc2).2.2 d hd k hk2

/-- Witness for `save_load_roundtrip` on a three-entry table. -/
theorem save_load_roundtrip_witness :
    (∀ e ∈ ([([65], 3), ([66], 7), ([67], 5)] : List ScoreEntry),
      e.1.length ≤ 255 ∧ e.2 < 2 ^ 64) ∧
    ∃ t, load_scores (save_scores [([65], 3), ([66], 7), ([67], 5)]) = Except.ok t ∧
      List.Perm t (([([65], 3), ([66], 7), ([67], 5)] :
        List ScoreEntry).reverse.take 10).reverse ∧
      List.Pairwise (fun a b : ScoreEntry => b.2 ≤ a.2) t ∧
      (([([65], 3), ([66], 7), ([67], 5)] : List ScoreEntry).length ≤ 10 →
        List.Perm t [([65], 3), ([66], 7), ([67], 5)]) ∧
      (List.Pairwise scoreLe ([([65], 3), ([66], 7), ([67], 5)] : List ScoreEntry) →
        ∀ d ∈ ([([65], 3), ([66], 7), ([67], 5)] : List ScoreEntry).take
          (([([65], 3), ([66], 7), ([67], 5)] : List ScoreEntry).length - 10),
          ∀ k ∈ t, d.2 ≤ k.2) :=
  ⟨by decide, save_load_roundtrip [([65], 3), ([66], 7), ([67], 5)] (by decide)⟩

/-- C10: `load_scores` fails with `InvalidData` whenever the file's first
eight bytes are not the magic `"tet.rs 1"`, and whenever bytes remain
after the declared number of entries has been read; in both cases no
score table is returned (the result is an error, not an `ok`). -/
theorem load_scores_invalid (contents : List Nat) :
    (8 ≤ contents.length → contents.take 8 ≠ MAGIC →
      load_scores contents = Except.error LoadError.invalidData) ∧
    (∀ cnt rest es leftover,
      contents = MAGIC ++ cnt :: rest →
      readEntriesLoop cnt rest = Except.ok (es, leftover) →
      leftover ≠ [] →
      load_scores contents = Except.error LoadError.invalidData) := by
  constructor
  · intro hlen hmag
    unfold load_scores
    have hr : readN 8 contents = Except.ok (contents.take 8, contents.drop 8) := by
      unfold readN
      rw [if_pos hlen]
    rw [hr, exc_bind_ok]
    simp only
    rw [if_pos hmag]
  · intro cnt rest es leftover hc hloop hleft
    subst hc
    unfold load_scores
    have h8 : readN 8 (MAGIC ++ cnt :: rest) = Except.ok (MAGIC, cnt :: rest) := by
      simpa using readN_append MAGIC (cnt :: rest)
    have h1 : readN 1 (cnt :: rest) = Except.ok ([cnt], rest) := by
      simpa using readN_append [cnt] rest
    rw [h8, exc_bind_ok]
    simp only
    rw [if_neg (by simp)]
    rw [h1, exc_bind_ok]
    simp only [List.headD]
    rw [hloop, exc_bind_ok]
    simp only
    rw [if_pos hleft]

/-- Witness for `load_scores_invalid`: an eight-zero-byte file (wrong
magic) and a well-framed file with one trailing byte. -/
theorem load_scores_invalid_witness :
    (8 ≤ ([0, 0, 0, 0, 0, 0, 0, 0] : List Nat).length ∧
      ([0, 0, 0, 0, 0, 0, 0, 0] : List Nat).take 8 ≠ MAGIC ∧
      load_scores [0, 0, 0, 0, 0, 0, 0, 0] = Except.error LoadError.invalidData) ∧
    (readEntriesLoop 0 [5] = Except.ok ([], [5]) ∧
      ([5] : List Nat) ≠ [] ∧
      load_scores (MAGIC ++ 0 :: [5]) = Except.error LoadError.invalidData) :=
  ⟨⟨by decide, by decide,
      (load_scores_invalid [0, 0, 0, 0, 0, 0, 0, 0]).1 (by decide) (by decide)⟩,
    ⟨rfl, by decide,
      (load_scores_invalid (MAGIC ++ 0 :: [5])).2 0 [5] [] [5] rfl rfl (by decide)⟩⟩

end Tetrs
